import Mathlib

/-!
Verification development for the parallel task scheduling repository
(`src/TaskScheduling.cpp`, `src/LinkedListArray.cpp`).

Shallow embedding conventions:
* `std::chrono::milliseconds` is a signed integer count, modelled as `Int`.
* A callback (`std::function<void()>`) is modelled by an identifier;
  `Option Nat` with `none` standing for a null callback.
* `mList` (a raw array of `ContainerItem`) is modelled as a total function
  `Nat → TimedTaskInfo`; only indices below `size` are ever used by the code.
* The free list `mFreeList` is written and read only below `mFreeCount`
  (a LIFO stack: `mFreeList[--mFreeCount]` pops, `mFreeList[mFreeCount++] = x`
  pushes).  Its live prefix is modelled as `freeList : List Nat` with the
  stack top at the head.
* The removal buffer `mRemovals` is likewise only used below `mRemovalCount`
  and is appended at the end and scanned front to back; it is modelled as
  `removals : List Nat` in append order (oldest first).
* `mAllocated : std::unordered_set<uint16_t>` is modelled as a `List Nat`
  with set-insert semantics (inserting a present element changes nothing).
  Iteration order of the C++ set is unspecified; the model fixes one
  concrete order (most recently inserted first), the way any single
  execution does.
* Effects of running a callback are recorded in logs: callbacks executed
  synchronously on the driving thread, and tasks handed to the worker
  pool's queue (`ParallelTaskRunner::RunTask` copies the `TaskInfo` into
  `mQueue`).  The worker threads themselves are concurrent and are not
  modelled.
-/

/-- `TaskInfo` (TaskScheduling.cpp lines 39-43): a callback plus the
`forceSynchronous` affinity flag.  `none` models a null callback. -/
structure TaskInfo where
  callback : Option Nat
  forceSynchronous : Bool
deriving DecidableEq, Repr

/-- `TimedTaskInfo` (TaskScheduling.cpp lines 45-49): a task plus its
remaining duration in milliseconds. -/
structure TimedTaskInfo where
  taskInfo : TaskInfo
  duration : Int
deriving DecidableEq, Repr

/-- The value-initialized `ContainerItem` element: null callback,
`forceSynchronous = true` (field default), duration 0. -/
def defaultEntry : TimedTaskInfo :=
  { taskInfo := { callback := none, forceSynchronous := true }, duration := 0 }

/-- `TaskContainer` (TaskScheduling.cpp lines 58-91): fixed-capacity slot
arena.  `slots` is `mList`, `allocated` is `mAllocated`, `freeList` is the
live prefix of `mFreeList` (head = stack top, length = `mFreeCount`),
`removals` is the live prefix of `mRemovals` (append order, length =
`mRemovalCount`). -/
structure TaskContainer where
  size : Nat
  slots : Nat → TimedTaskInfo
  allocated : List Nat
  freeList : List Nat
  removals : List Nat

/-- The constructor (lines 145-158): all slots default-initialized, the
free list holds every index with `mFreeList[i] = i`, so the stack top
(`mFreeList[size-1]`) is `size-1`; the removal buffer is empty. -/
def TaskContainer.init (size : Nat) : TaskContainer :=
  { size := size
    slots := fun _ => defaultEntry
    allocated := []
    freeList := (List.range size).reverse
    removals := [] }

/-- `TaskContainer::Insert` (lines 171-178): fail iff `mFreeCount == 0`;
otherwise pop the top free index, overwrite that slot with the new entry,
and add the index to `mAllocated` (set-insert: no effect if present). -/
def TaskContainer.insert (c : TaskContainer) (e : TimedTaskInfo) :
    TaskContainer × Bool :=
  match c.freeList with
  | [] => (c, false)
  | idx :: rest =>
      ({ c with
          freeList := rest
          slots := Function.update c.slots idx e
          allocated :=
            if idx ∈ c.allocated then c.allocated else idx :: c.allocated },
        true)

/-- The slot index that the next successful `Insert` will pop
(`mFreeList[mFreeCount - 1]`), or `none` if the arena is full. -/
def TaskContainer.insertIndex (c : TaskContainer) : Option Nat :=
  c.freeList.head?

/-- One iteration of the `ForEach` loop body (lines 182-189): read the
slot, run the visitor (which may update the entry in place and report
whether to remove it), write the entry back, and append the index to the
removal buffer when the visitor returned true.  The visitor is allowed to
carry state `σ` (the C++ `std::function` may capture state, as
`TaskScheduler::ForEachTask` does). -/
def TaskContainer.visitStep {σ : Type}
    (f : σ → TimedTaskInfo → σ × TimedTaskInfo × Bool)
    (acc : (Nat → TimedTaskInfo) × List Nat × σ) (i : Nat) :
    (Nat → TimedTaskInfo) × List Nat × σ :=
  match acc with
  | (slots, rems, s) =>
    match f s (slots i) with
    | (s', e', flag) =>
        (Function.update slots i e', if flag then rems ++ [i] else rems, s')

/-- `TaskContainer::ForEach` (lines 180-190): visit every allocated index
once, in the model's iteration order of `mAllocated`. -/
def TaskContainer.forEach {σ : Type} (c : TaskContainer)
    (f : σ → TimedTaskInfo → σ × TimedTaskInfo × Bool) (s0 : σ) :
    TaskContainer × σ :=
  match c.allocated.foldl (TaskContainer.visitStep f) (c.slots, c.removals, s0) with
  | (slots', rems', s') => ({ c with slots := slots', removals := rems' }, s')

/-- `TaskContainer::PostIterate` (lines 192-200): for every buffered index,
erase it from `mAllocated` and push it onto the free-list stack; finally
reset `mRemovalCount` to 0.  The C++ loop interleaves the erase and the
push per element; since they touch disjoint fields the model performs the
same loop per field. -/
def TaskContainer.postIterate (c : TaskContainer) : TaskContainer :=
  { c with
      allocated := c.removals.foldl List.erase c.allocated
      freeList := c.removals.foldl (fun fp r => r :: fp) c.freeList
      removals := [] }

/-- `TaskSchedulerInfo` (lines 112-116). -/
structure TaskSchedulerInfo where
  maxSize : Nat
  numParallelThreads : Nat
deriving DecidableEq, Repr

/-- `TaskScheduler` state (lines 118-139), together with the observable
effect logs: `syncRuns` records every callback executed synchronously on
the driving thread (in execution order), `poolQueue` records every task
handed to `ParallelTaskRunner::RunTask` (in handoff order). -/
structure TaskScheduler where
  running : Bool
  parallelExecutionAllowed : Bool
  container : TaskContainer
  elapsed : Int
  syncRuns : List TaskInfo
  poolQueue : List TaskInfo

/-- The `TaskScheduler` constructor (lines 258-269): `mRunning = true`,
`mParallelExecutionAllowed = numParallelThreads > 0`, fresh container of
capacity `maxSize`, `mElapsed = 0`. -/
def TaskScheduler.create (info : TaskSchedulerInfo) : TaskScheduler :=
  { running := true
    parallelExecutionAllowed := decide (0 < info.numParallelThreads)
    container := TaskContainer.init info.maxSize
    elapsed := 0
    syncRuns := []
    poolQueue := [] }

/-- `TaskScheduler::ForEachTask` (lines 292-316) as a container visitor.
State is the pair (synchronous-run log, pool-queue log).  A triggered
entry (`mElapsed >= duration`) is dispatched — synchronously when
`forceSynchronous || !mParallelExecutionAllowed`, otherwise handed to the
pool — and marked for removal; a surviving entry has `mElapsed`
subtracted from its duration. -/
def TaskScheduler.forEachTask (allowed : Bool) (elapsed : Int)
    (logs : List TaskInfo × List TaskInfo) (e : TimedTaskInfo) :
    (List TaskInfo × List TaskInfo) × TimedTaskInfo × Bool :=
  if elapsed ≥ e.duration then
    if e.taskInfo.forceSynchronous || !allowed then
      ((logs.1 ++ [e.taskInfo], logs.2), e, true)
    else
      ((logs.1, logs.2 ++ [e.taskInfo]), e, true)
  else
    (logs, { e with duration := e.duration - elapsed }, false)

/-- `TaskScheduler::ProcessTasks` (lines 281-290): store the elapsed time
measured since the previous tick (supplied as input; the monotonic clock
guarantees it is nonnegative), run `ForEach` with `ForEachTask`, then
`PostIterate`. -/
def TaskScheduler.processTasks (s : TaskScheduler) (elapsedNow : Int) :
    TaskScheduler :=
  match s.container.forEach
      (TaskScheduler.forEachTask s.parallelExecutionAllowed elapsedNow)
      (s.syncRuns, s.poolQueue) with
  | (c1, logs) =>
      { s with
          elapsed := elapsedNow
          container := c1.postIterate
          syncRuns := logs.1
          poolQueue := logs.2 }

/-- `TaskScheduler::AddTimedTask` (lines 331-339): reject (log only) a
null callback; otherwise call `Insert` and discard its boolean result —
the function returns `void`, so the caller receives nothing. -/
def TaskScheduler.addTimedTask (s : TaskScheduler) (duration : Int)
    (t : TaskInfo) : TaskScheduler :=
  match t.callback with
  | none => s
  | some _ =>
      { s with
          container := (s.container.insert { taskInfo := t, duration := duration }).1 }

/-- `TaskScheduler::ForceRunEachTask` (lines 318-329): dispatch
unconditionally (same affinity rule as `ForEachTask`), never mutate the
entry, always mark it for removal. -/
def TaskScheduler.forceRunEachTask (allowed : Bool)
    (logs : List TaskInfo × List TaskInfo) (e : TimedTaskInfo) :
    (List TaskInfo × List TaskInfo) × TimedTaskInfo × Bool :=
  if e.taskInfo.forceSynchronous || !allowed then
    ((logs.1 ++ [e.taskInfo], logs.2), e, true)
  else
    ((logs.1, logs.2 ++ [e.taskInfo]), e, true)

/-- `TaskScheduler::Terminate` (lines 351-364): when `finishTasks` is
true, run one pass of `ForceRunEachTask` and sweep; then (joining the
worker pool is a concurrency effect, not modelled) set `mRunning = false`.
No other field is touched, and `mRunning` is never read by
`AddTimedTask` or `ProcessTasks`. -/
def TaskScheduler.terminate (s : TaskScheduler) (finishTasks : Bool) :
    TaskScheduler :=
  let s1 :=
    if finishTasks then
      match s.container.forEach
          (TaskScheduler.forceRunEachTask s.parallelExecutionAllowed)
          (s.syncRuns, s.poolQueue) with
      | (c1, logs) =>
          { s with
              container := c1.postIterate
              syncRuns := logs.1
              poolQueue := logs.2 }
    else s
  { s1 with running := false }

/-- `LinkedListArray` (src/LinkedListArray.cpp lines 22-44), the earlier
draft of the arena with the same index machinery; the element type is
instantiated with `Nat`.  Field correspondence as for `TaskContainer`. -/
structure LinkedListArray where
  size : Nat
  slots : Nat → Nat
  allocated : List Nat
  freeList : List Nat
  removals : List Nat

/-- `LinkedListArray` constructor (lines 48-58): same all-free initial
state; the `mRemovals` cells are pre-filled with a sentinel but the live
prefix (length `mRemovalCount = 0`) is empty. -/
def LinkedListArray.init (size : Nat) : LinkedListArray :=
  { size := size
    slots := fun _ => 0
    allocated := []
    freeList := (List.range size).reverse
    removals := [] }

/-- `LinkedListArray::Insert` (lines 60-68): identical to
`TaskContainer::Insert`. -/
def LinkedListArray.insert (c : LinkedListArray) (e : Nat) :
    LinkedListArray × Bool :=
  match c.freeList with
  | [] => (c, false)
  | idx :: rest =>
      ({ c with
          freeList := rest
          slots := Function.update c.slots idx e
          allocated :=
            if idx ∈ c.allocated then c.allocated else idx :: c.allocated },
        true)

/-- `LinkedListArray::ForEach` (lines 70-81): the visitor receives the
element by value (`std::function<bool(T)>`), so slots are never mutated;
indices whose element the visitor flags are appended to the removal
buffer. -/
def LinkedListArray.forEach (c : LinkedListArray) (f : Nat → Bool) :
    LinkedListArray :=
  { c with
      removals := c.removals ++ c.allocated.filter (fun i => f (c.slots i)) }

/-- `LinkedListArray::PostIterate` (lines 83-91): erases every buffered
index from `mAllocated` and pushes it onto the free list — but, unlike
`TaskContainer::PostIterate` (TaskScheduling.cpp line 199) and the
`TestModule.cpp` copy (line 163), it never resets `mRemovalCount`, so the
buffered indices stay live. -/
def LinkedListArray.postIterate (c : LinkedListArray) : LinkedListArray :=
  { c with
      allocated := c.removals.foldl List.erase c.allocated
      freeList := c.removals.foldl (fun fp r => r :: fp) c.freeList }

/-!  Operation sequences on the container (for the trace-quantified
claims).  A `visit` step carries the visitor as a pure per-entry
function, the shape every visitor in the repository has. -/

/-- One public `TaskContainer` operation. -/
inductive COp where
  | ins (e : TimedTaskInfo)
  | visit (f : TimedTaskInfo → TimedTaskInfo × Bool)
  | sweep

/-- Apply one public operation. -/
def TaskContainer.applyOp (c : TaskContainer) : COp → TaskContainer
  | COp.ins e => (c.insert e).1
  | COp.visit f =>
      (c.forEach (fun (u : Unit) e => (u, f e)) ()).1
  | COp.sweep => c.postIterate

/-- Run a sequence of public operations. -/
def TaskContainer.runOps (c : TaskContainer) (ops : List COp) : TaskContainer :=
  ops.foldl TaskContainer.applyOp c

/-- A sequence is well formed from state `c` when every visit pass starts
with an empty removal buffer — i.e. every `ForEach` has been followed by a
`PostIterate` before the next `ForEach`, which is how the scheduler always
drives the container (`ProcessTasks`, `Terminate`) and what the spec
demands ("`Sweep` must be called exactly once per `VisitAll` pass"). -/
def TaskContainer.wfFrom (c : TaskContainer) : List COp → Bool
  | [] => true
  | op :: ops =>
      (match op with
        | COp.visit _ => c.removals.isEmpty
        | _ => true) && TaskContainer.wfFrom (c.applyOp op) ops

/-- The indices that are logically Active: allocated and not queued for
removal (a buffered index is still a member of `mAllocated` until swept;
the spec calls its logical state PendingRemoval). -/
def TaskContainer.activeList (c : TaskContainer) : List Nat :=
  c.allocated.filter (fun i => decide (i ∉ c.removals))

/-- The three-way partition property of claim C1: the sizes of the free
list, the logically-active set and the removal buffer sum to the
capacity; every index below the capacity is in exactly one of the three;
no index is in two of them. -/
def TaskContainer.PartitionInv (c : TaskContainer) : Prop :=
  (c.freeList.length + c.activeList.length + c.removals.length = c.size) ∧
  (∀ i, i < c.size →
    ((i ∈ c.freeList ∧ i ∉ c.activeList ∧ i ∉ c.removals) ∨
     (i ∉ c.freeList ∧ i ∈ c.activeList ∧ i ∉ c.removals) ∨
     (i ∉ c.freeList ∧ i ∉ c.activeList ∧ i ∈ c.removals))) ∧
  (∀ i, i < c.size →
    (¬ (i ∈ c.freeList ∧ i ∈ c.activeList) ∧
     ¬ (i ∈ c.freeList ∧ i ∈ c.removals) ∧
     ¬ (i ∈ c.activeList ∧ i ∈ c.removals)))

/-- The representation invariant of the container, maintained by
well-formed operation sequences: the free-list live prefix and
`mAllocated` are duplicate-free and disjoint, together they cover exactly
the index range, and the removal buffer is a duplicate-free subset of
`mAllocated`. -/
def TaskContainer.Inv (c : TaskContainer) : Prop :=
  c.freeList.Nodup ∧ c.allocated.Nodup ∧ c.removals.Nodup ∧
  (∀ i, i ∈ c.removals → i ∈ c.allocated) ∧
  (∀ i, i ∈ c.freeList → i ∉ c.allocated) ∧
  (∀ i, (i ∈ c.freeList ∨ i ∈ c.allocated) ↔ i < c.size)

/-!  ## Characterization of the visit fold and the sweep folds -/

/-- Characterization of the `ForEach` loop for visitors whose entry update
and removal decision depend only on the entry (every visitor in the
repository has this shape; the threaded state only accumulates effects).
Each allocated index is visited exactly once (`Nodup`), reading the slot
value from before the pass. -/
theorem visit_foldl_spec {σ : Type}
    (f : σ → TimedTaskInfo → σ × TimedTaskInfo × Bool)
    (upd : TimedTaskInfo → TimedTaskInfo) (mark : TimedTaskInfo → Bool)
    (hupd : ∀ s e, (f s e).2.1 = upd e)
    (hmark : ∀ s e, (f s e).2.2 = mark e) :
    ∀ (al : List Nat) (slots : Nat → TimedTaskInfo) (rems : List Nat) (s0 : σ),
      al.Nodup →
      al.foldl (TaskContainer.visitStep f) (slots, rems, s0) =
        ((fun j => if j ∈ al then upd (slots j) else slots j),
         rems ++ al.filter (fun i => mark (slots i)),
         (al.map slots).foldl (fun s e => (f s e).1) s0) := by
  intro al
  induction al with
  | nil =>
      intro slots rems s0 _
      simp
  | cons i rest ih =>
      intro slots rems s0 hnd
      have hni : i ∉ rest := (List.nodup_cons.mp hnd).1
      have hndr : rest.Nodup := (List.nodup_cons.mp hnd).2
      have h1 : TaskContainer.visitStep f (slots, rems, s0) i =
          (Function.update slots i (upd (slots i)),
           if mark (slots i) then rems ++ [i] else rems,
           (f s0 (slots i)).1) := by
        show (Function.update slots i (f s0 (slots i)).2.1,
              if (f s0 (slots i)).2.2 then rems ++ [i] else rems,
              (f s0 (slots i)).1) = _
        rw [hupd, hmark]
      rw [List.foldl_cons, h1,
        ih (Function.update slots i (upd (slots i)))
          (if mark (slots i) then rems ++ [i] else rems) ((f s0 (slots i)).1) hndr]
      refine Prod.ext ?_ (Prod.ext ?_ ?_)
      · funext j
        by_cases hji : j = i
        · subst hji
          simp [Function.update_same, hni]
        · simp only [Function.update_noteq hji, List.mem_cons, hji, false_or]
      · have hfe : rest.filter (fun k => mark (Function.update slots i (upd (slots i)) k))
            = rest.filter (fun k => mark (slots k)) := by
          refine List.filter_congr ?_
          intro k hk
          rw [Function.update_noteq (by rintro rfl; exact hni hk)]
        simp only [hfe, List.filter_cons]
        by_cases hm : mark (slots i)
        · simp [hm]
        · simp [hm]
      · have hme : rest.map (Function.update slots i (upd (slots i)))
            = rest.map slots := by
          refine List.map_congr_left ?_
          intro k hk
          exact Function.update_noteq (by rintro rfl; exact hni hk) _ _
        simp [hme]

/-- `ForEach` leaves `mAllocated` and the free list unchanged, appends to
the removal buffer exactly the visited indices the visitor flags, updates
every allocated slot through the visitor's entry update, and folds the
visitor's effect over the pre-pass entries. -/
theorem TaskContainer.forEach_eq {σ : Type} (c : TaskContainer)
    (f : σ → TimedTaskInfo → σ × TimedTaskInfo × Bool)
    (upd : TimedTaskInfo → TimedTaskInfo) (mark : TimedTaskInfo → Bool)
    (hupd : ∀ s e, (f s e).2.1 = upd e)
    (hmark : ∀ s e, (f s e).2.2 = mark e)
    (s0 : σ) (hnd : c.allocated.Nodup) :
    c.forEach f s0 =
      ({ c with
          slots := fun j => if j ∈ c.allocated then upd (c.slots j) else c.slots j
          removals := c.removals ++ c.allocated.filter (fun i => mark (c.slots i)) },
       (c.allocated.map c.slots).foldl (fun s e => (f s e).1) s0) := by
  unfold TaskContainer.forEach
  rw [visit_foldl_spec f upd mark hupd hmark c.allocated c.slots c.removals s0 hnd]

/-- Folding `List.erase` over a duplicate-free list removes exactly the
erased elements. -/
theorem foldl_erase_eq_filter :
    ∀ (rs al : List Nat), al.Nodup →
      rs.foldl List.erase al = al.filter (fun i => decide (i ∉ rs)) := by
  intro rs
  induction rs with
  | nil =>
      intro al _
      simp
  | cons r rs ih =>
      intro al hnd
      rw [List.foldl_cons, ih (al.erase r) (hnd.erase r), hnd.erase_eq_filter r,
        List.filter_filter]
      refine List.filter_congr ?_
      intro x _
      by_cases h1 : x = r <;> by_cases h2 : x ∈ rs <;> simp [h1, h2]

/-- Folding a stack push over a list pushes the elements in order: the
last pushed element ends on top. -/
theorem foldl_cons_eq_reverse_append :
    ∀ (rs fp : List Nat), rs.foldl (fun l r => r :: l) fp = rs.reverse ++ fp := by
  intro rs
  induction rs with
  | nil => intro fp; simp
  | cons r rs ih => intro fp; simp [List.foldl_cons, ih (r :: fp)]

/-- `PostIterate` on a duplicate-free `mAllocated`: the buffered indices
leave the allocated set (precisely the logically-active ones stay), the
buffered indices are pushed onto the free-list stack, and the buffer is
cleared. -/
theorem TaskContainer.postIterate_eq (c : TaskContainer)
    (hnd : c.allocated.Nodup) :
    c.postIterate =
      { c with
          allocated := c.allocated.filter (fun i => decide (i ∉ c.removals))
          freeList := c.removals.reverse ++ c.freeList
          removals := [] } := by
  unfold TaskContainer.postIterate
  rw [foldl_erase_eq_filter c.removals c.allocated hnd,
    foldl_cons_eq_reverse_append c.removals c.freeList]

/-!  ## The representation invariant is maintained -/

/-- Membership in the logically-active set. -/
theorem TaskContainer.mem_activeList (c : TaskContainer) (i : Nat) :
    i ∈ c.activeList ↔ i ∈ c.allocated ∧ i ∉ c.removals := by
  simp [TaskContainer.activeList]

/-- A fresh container satisfies the representation invariant. -/
theorem TaskContainer.init_inv (size : Nat) : (TaskContainer.init size).Inv := by
  refine ⟨?_, ?_, ?_, ?_, ?_, ?_⟩
  · exact List.nodup_reverse.mpr (List.nodup_range size)
  · exact List.nodup_nil
  · exact List.nodup_nil
  · intro i hi; cases hi
  · intro i _ hi; cases hi
  · intro i
    simp [TaskContainer.init, List.mem_reverse, List.mem_range]

/-- `Insert` preserves the representation invariant. -/
theorem TaskContainer.insert_inv (c : TaskContainer) (e : TimedTaskInfo)
    (h : c.Inv) : ((c.insert e).1).Inv := by
  obtain ⟨hf, ha, hr, hra, hfa, hcov⟩ := h
  cases hfl : c.freeList with
  | nil =>
      simp only [TaskContainer.insert, hfl]
      exact ⟨hfl ▸ hf, ha, hr, hra, hfa, hcov⟩
  | cons idx rest =>
      have hidxf : idx ∈ c.freeList := by rw [hfl]; exact List.mem_cons_self _ _
      have hidxa : idx ∉ c.allocated := hfa idx hidxf
      have hfr : idx ∉ rest ∧ rest.Nodup := List.nodup_cons.mp (hfl ▸ hf)
      simp only [TaskContainer.insert, hfl, if_neg hidxa]
      refine ⟨hfr.2, List.nodup_cons.mpr ⟨hidxa, ha⟩, hr, ?_, ?_, ?_⟩
      · intro i hi
        exact List.mem_cons_of_mem _ (hra i hi)
      · intro i hi
        have hif : i ∈ c.freeList := by rw [hfl]; exact List.mem_cons_of_mem _ hi
        have hia : i ∉ c.allocated := hfa i hif
        have hii : i ≠ idx := fun hd => hfr.1 (hd ▸ hi)
        simp [List.mem_cons, hii, hia]
      · intro i
        have hc := hcov i
        rw [hfl] at hc
        simp only [List.mem_cons] at hc ⊢
        tauto

/-- `ForEach` preserves the representation invariant whenever the pass
starts with an empty removal buffer (the well-formed driving protocol). -/
theorem TaskContainer.forEach_inv {σ : Type} (c : TaskContainer)
    (f : σ → TimedTaskInfo → σ × TimedTaskInfo × Bool)
    (upd : TimedTaskInfo → TimedTaskInfo) (mark : TimedTaskInfo → Bool)
    (hupd : ∀ s e, (f s e).2.1 = upd e)
    (hmark : ∀ s e, (f s e).2.2 = mark e)
    (s0 : σ) (h : c.Inv) (hrem : c.removals = []) :
    ((c.forEach f s0).1).Inv := by
  obtain ⟨hf, ha, hr, hra, hfa, hcov⟩ := h
  rw [TaskContainer.forEach_eq c f upd mark hupd hmark s0 ha]
  refine ⟨hf, ha, ?_, ?_, hfa, hcov⟩
  · rw [hrem]
    simpa using ha.filter (fun i => mark (c.slots i))
  · intro i hi
    rw [hrem] at hi
    simp only [List.nil_append, List.mem_filter] at hi
    exact hi.1

/-- `PostIterate` preserves the representation invariant. -/
theorem TaskContainer.postIterate_inv (c : TaskContainer) (h : c.Inv) :
    c.postIterate.Inv := by
  obtain ⟨hf, ha, hr, hra, hfa, hcov⟩ := h
  rw [TaskContainer.postIterate_eq c ha]
  have hram : ∀ i, i ∈ c.removals → i ∉ c.freeList := by
    intro i hi hif
    exact hfa i hif (hra i hi)
  refine ⟨?_, ha.filter _, List.nodup_nil, ?_, ?_, ?_⟩
  · refine List.Nodup.append (List.nodup_reverse.mpr hr) hf ?_
    intro i hi
    exact hram i (List.mem_reverse.mp hi)
  · intro i hi; cases hi
  · intro i hi
    rw [List.mem_append, List.mem_reverse] at hi
    rcases hi with hi | hi
    · simp [List.mem_filter, hi]
    · intro hmem
      rw [List.mem_filter] at hmem
      exact hfa i hi hmem.1
  · intro i
    have hc := hcov i
    by_cases him : i ∈ c.removals
    · simp only [List.mem_append, List.mem_reverse, List.mem_filter, him,
        not_true_eq_false, and_false, decide_False]
      simp only [← hc]
      have : i ∈ c.allocated := hra i him
      tauto
    · simp only [List.mem_append, List.mem_reverse, List.mem_filter, him,
        not_false_eq_true, and_true, decide_True]
      simp only [← hc]
      tauto

/-- Running any well-formed operation sequence from an invariant-holding
state preserves the invariant. -/
theorem TaskContainer.runOps_inv :
    ∀ (ops : List COp) (c : TaskContainer), c.Inv → c.wfFrom ops = true →
      (c.runOps ops).Inv := by
  intro ops
  induction ops with
  | nil => intro c h _; exact h
  | cons op ops ih =>
      intro c h hwf
      have hwf2 := (Bool.and_eq_true _ _).mp hwf
      refine ih (c.applyOp op) ?_ hwf2.2
      cases op with
      | ins e => exact c.insert_inv e h
      | visit f =>
          have hrem : c.removals = [] := by
            have := hwf2.1
            simpa [List.isEmpty_iff] using this
          exact c.forEach_inv _ (fun e => (f e).1) (fun e => (f e).2)
            (fun _ _ => rfl) (fun _ _ => rfl) () h hrem
      | sweep => exact c.postIterate_inv h

/-- The representation invariant implies the three-way partition of
claim C1. -/
theorem TaskContainer.inv_partition (c : TaskContainer) (h : c.Inv) :
    c.PartitionInv := by
  obtain ⟨hf, ha, hr, hra, hfa, hcov⟩ := h
  have hact : ∀ i, i ∈ c.activeList ↔ i ∈ c.allocated ∧ i ∉ c.removals :=
    c.mem_activeList
  have hexact : ∀ i, i < c.size →
      ((i ∈ c.freeList ∧ i ∉ c.activeList ∧ i ∉ c.removals) ∨
       (i ∉ c.freeList ∧ i ∈ c.activeList ∧ i ∉ c.removals) ∨
       (i ∉ c.freeList ∧ i ∉ c.activeList ∧ i ∈ c.removals)) := by
    intro i hi
    rcases (hcov i).mpr hi with hif | hia
    · have hia : i ∉ c.allocated := hfa i hif
      exact Or.inl ⟨hif, fun hx => hia ((hact i).mp hx).1, fun hx => hia (hra i hx)⟩
    · have hif : i ∉ c.freeList := fun hx => hfa i hx hia
      by_cases him : i ∈ c.removals
      · exact Or.inr (Or.inr ⟨hif, fun hx => ((hact i).mp hx).2 him, him⟩)
      · exact Or.inr (Or.inl ⟨hif, (hact i).mpr ⟨hia, him⟩, him⟩)
  refine ⟨?_, hexact, ?_⟩
  · have hcat : (c.freeList ++ c.allocated).Nodup := by
      refine List.Nodup.append hf ha ?_
      intro i hi
      exact hfa i hi
    have hperm : List.Perm (c.freeList ++ c.allocated) (List.range c.size) := by
      refine (List.perm_ext_iff_of_nodup hcat (List.nodup_range _)).2 ?_
      intro a
      rw [List.mem_append, List.mem_range]
      exact hcov a
    have hlen : c.freeList.length + c.allocated.length = c.size := by
      have := hperm.length_eq
      simpa using this
    have hsplit := @List.length_eq_length_filter_add Nat c.allocated
      (fun i => decide (i ∉ c.removals))
    have hpr : List.Perm
        (c.allocated.filter (fun i => !decide (i ∉ c.removals))) c.removals := by
      refine (List.perm_ext_iff_of_nodup (ha.filter _) hr).2 ?_
      intro a
      simp only [List.mem_filter, Bool.not_eq_true', decide_eq_false_iff_not,
        not_not]
      exact ⟨fun hx => hx.2, fun hx => ⟨hra a hx, hx⟩⟩
    have hrl : (c.allocated.filter (fun i => !decide (i ∉ c.removals))).length
        = c.removals.length := hpr.length_eq
    unfold TaskContainer.activeList
    omega
  · intro i hi
    rcases hexact i hi with ⟨h1, h2, h3⟩ | ⟨h1, h2, h3⟩ | ⟨h1, h2, h3⟩ <;>
      exact ⟨fun hx => by tauto, fun hx => by tauto, fun hx => by tauto⟩

/-!  ## Scheduler-level helper lemmas -/

/-- The entry update performed by `ForEachTask`: triggered entries are
left untouched, surviving entries have the elapsed time subtracted. -/
def tickUpd (E : Int) (e : TimedTaskInfo) : TimedTaskInfo :=
  if E ≥ e.duration then e else { e with duration := e.duration - E }

/-- The removal decision of `ForEachTask`: exactly the triggered entries. -/
def tickMark (E : Int) (e : TimedTaskInfo) : Bool :=
  decide (E ≥ e.duration)

/-- A triggered entry is dispatched synchronously under this condition
(`forceSynchronous || !mParallelExecutionAllowed`). -/
def syncMode (allowed : Bool) (e : TimedTaskInfo) : Bool :=
  e.taskInfo.forceSynchronous || !allowed

/-- `ForEachTask` updates entries by `tickUpd`, independently of the logs. -/
theorem forEachTask_upd (allowed : Bool) (E : Int)
    (logs : List TaskInfo × List TaskInfo) (e : TimedTaskInfo) :
    (TaskScheduler.forEachTask allowed E logs e).2.1 = tickUpd E e := by
  unfold TaskScheduler.forEachTask tickUpd
  by_cases h : E ≥ e.duration
  · by_cases hs : (e.taskInfo.forceSynchronous || !allowed) = true <;> simp [h, hs]
  · simp [h]

/-- `ForEachTask` marks entries by `tickMark`, independently of the logs. -/
theorem forEachTask_mark (allowed : Bool) (E : Int)
    (logs : List TaskInfo × List TaskInfo) (e : TimedTaskInfo) :
    (TaskScheduler.forEachTask allowed E logs e).2.2 = tickMark E e := by
  unfold TaskScheduler.forEachTask tickMark
  by_cases h : E ≥ e.duration
  · by_cases hs : (e.taskInfo.forceSynchronous || !allowed) = true <;> simp [h, hs]
  · simp [h]

/-- Folding the `ForEachTask` effect over a list of entries appends to the
synchronous-run log exactly the triggered entries dispatched
synchronously, and to the pool queue exactly the triggered entries
dispatched in parallel, each exactly once and in visit order. -/
theorem forEachTask_logs (allowed : Bool) (E : Int) :
    ∀ (entries : List TimedTaskInfo) (sy pq : List TaskInfo),
      entries.foldl
          (fun logs e => (TaskScheduler.forEachTask allowed E logs e).1) (sy, pq)
        = (sy ++ (entries.filter
              (fun e => tickMark E e && syncMode allowed e)).map
                (fun e => e.taskInfo),
           pq ++ (entries.filter
              (fun e => tickMark E e && !syncMode allowed e)).map
                (fun e => e.taskInfo)) := by
  intro entries
  induction entries with
  | nil => intro sy pq; simp
  | cons e entries ih =>
      intro sy pq
      rw [List.foldl_cons]
      by_cases h : E ≥ e.duration
      · by_cases hs : (e.taskInfo.forceSynchronous || !allowed) = true
        · have hc1 : (tickMark E e && syncMode allowed e) = true := by
            simp [tickMark, syncMode, h, hs]
          have hc2 : (tickMark E e && !syncMode allowed e) = false := by
            simp [syncMode, hs]
          have hstep : (TaskScheduler.forEachTask allowed E (sy, pq) e).1
              = (sy ++ [e.taskInfo], pq) := by
            simp [TaskScheduler.forEachTask, h, hs]
          rw [hstep, ih]
          simp [List.filter_cons, hc1, hc2]
        · have hsf : (e.taskInfo.forceSynchronous || !allowed) = false :=
            Bool.not_eq_true _ ▸ (by simpa using hs)
          have hfs : e.taskInfo.forceSynchronous = false :=
            (Bool.or_eq_false_iff.mp hsf).1
          have hal : allowed = true := by
            have := (Bool.or_eq_false_iff.mp hsf).2
            simpa using this
          have hc1 : (tickMark E e && syncMode allowed e) = false := by
            simp [syncMode, hsf]
          have hc2 : (tickMark E e && !syncMode allowed e) = true := by
            simp [tickMark, syncMode, h, hsf]
          have hstep : (TaskScheduler.forEachTask allowed E (sy, pq) e).1
              = (sy, pq ++ [e.taskInfo]) := by
            simp [TaskScheduler.forEachTask, h, hfs, hal]
          rw [hstep, ih]
          simp [List.filter_cons, hc1, hc2]
      · have hc0 : tickMark E e = false := by
          simp [tickMark, h]
        have hc1 : (tickMark E e && syncMode allowed e) = false := by
          simp [hc0]
        have hc2 : (tickMark E e && !syncMode allowed e) = false := by
          simp [hc0]
        have hstep : (TaskScheduler.forEachTask allowed E (sy, pq) e).1
            = (sy, pq) := by
          simp [TaskScheduler.forEachTask, h]
        rw [hstep, ih]
        simp [List.filter_cons, hc1, hc2]

/-- With the worker pool disabled the visit fold never touches the pool
queue, whatever the allocated indices or slot contents are. -/
theorem visit_foldl_pool_const (E : Int) :
    ∀ (al : List Nat)
      (acc : (Nat → TimedTaskInfo) × List Nat × (List TaskInfo × List TaskInfo)),
      (al.foldl
          (TaskContainer.visitStep (TaskScheduler.forEachTask false E)) acc).2.2.2
        = acc.2.2.2 := by
  intro al
  induction al with
  | nil => intro acc; rfl
  | cons i rest ih =>
      intro acc
      rw [List.foldl_cons, ih]
      show (TaskScheduler.forEachTask false E acc.2.2 (acc.1 i)).1.2 = acc.2.2.2
      unfold TaskScheduler.forEachTask
      by_cases h : E ≥ (acc.1 i).duration <;> simp [h]

/-- Two consecutive pops from a duplicate-free free list yield distinct
indices. -/
theorem insertIndex_consecutive (s : TaskContainer) (hf : s.freeList.Nodup)
    (e : TimedTaskInfo) (i j : Nat) (hi : s.insertIndex = some i)
    (hj : ((s.insert e).1).insertIndex = some j) : i ≠ j := by
  cases hfl : s.freeList with
  | nil =>
      rw [TaskContainer.insertIndex, hfl] at hi
      cases hi
  | cons a rest =>
      have hia : i = a := by
        rw [TaskContainer.insertIndex, hfl] at hi
        simpa using hi.symm
      have hrest : ((s.insert e).1).freeList = rest := by
        simp [TaskContainer.insert, hfl]
      rw [TaskContainer.insertIndex, hrest] at hj
      cases rest with
      | nil => cases hj
      | cons b rest2 =>
          have hjb : j = b := by simpa using hj.symm
          have hnin : a ∉ (b :: rest2) := (List.nodup_cons.mp (hfl ▸ hf)).1
          subst hia hjb
          intro hab
          exact hnin (hab ▸ List.mem_cons_self _ _)

/-!  ## Concrete tasks and scenario states used by the claims -/

/-- A synchronous task with callback id 1. -/
def taskA : TaskInfo := { callback := some 1, forceSynchronous := true }

/-- A parallel-eligible task with callback id 2. -/
def taskB : TaskInfo := { callback := some 2, forceSynchronous := false }

/-- Two `ForEach` passes with no intervening `PostIterate`, on a
capacity-2 arena holding one expired entry (slot 1) and one pending entry
(slot 0); every step is an ordinary public-operation call, and none of the
underlying C++ array writes goes out of bounds. -/
def doubleVisitOps : List COp :=
  [COp.ins { taskInfo := taskA, duration := 0 },
   COp.ins { taskInfo := taskB, duration := 100 },
   COp.visit (fun e => (e, decide (e.duration ≤ 0))),
   COp.visit (fun e => (e, decide (e.duration ≤ 0))),
   COp.sweep]

/-- A well-formed driving sequence: insert, one visit pass, one sweep. -/
def wfOps : List COp :=
  [COp.ins { taskInfo := taskA, duration := 0 },
   COp.visit (fun e => (e, decide (e.duration ≤ 0))),
   COp.sweep]

/-- Capacity-1 scheduler with no worker pool. -/
def schedCap1 : TaskScheduler :=
  TaskScheduler.create { maxSize := 1, numParallelThreads := 0 }

/-- The capacity-1 scheduler after one accepted submission. -/
def schedFull : TaskScheduler := schedCap1.addTimedTask 5 taskA

/-- Capacity-1 container holding one entry already marked for removal. -/
def markedC1 : TaskContainer :=
  TaskContainer.runOps (TaskContainer.init 1)
    [COp.ins { taskInfo := taskA, duration := 0 },
     COp.visit (fun e => (e, true))]

/-- Size-1 `LinkedListArray` after inserting one element and marking it in
one `ForEach` pass. -/
def llMarked : LinkedListArray :=
  (((LinkedListArray.init 1).insert 42).1).forEach (fun _ => true)

instance (c : TaskContainer) : Decidable c.PartitionInv :=
  have h1 : Decidable
      (c.freeList.length + c.activeList.length + c.removals.length = c.size) :=
    inferInstance
  have h2 : Decidable (∀ i, i < c.size →
      ((i ∈ c.freeList ∧ i ∉ c.activeList ∧ i ∉ c.removals) ∨
       (i ∉ c.freeList ∧ i ∈ c.activeList ∧ i ∉ c.removals) ∨
       (i ∉ c.freeList ∧ i ∉ c.activeList ∧ i ∈ c.removals))) := inferInstance
  have h3 : Decidable (∀ i, i < c.size →
      (¬ (i ∈ c.freeList ∧ i ∈ c.activeList) ∧
       ¬ (i ∈ c.freeList ∧ i ∈ c.removals) ∧
       ¬ (i ∈ c.activeList ∧ i ∈ c.removals))) := inferInstance
  @instDecidableAnd _ _ h1 (@instDecidableAnd _ _ h2 h3)

/-!  ## Claims -/

/-- Claim C1, counterexample: over arbitrary sequences of the three public
operations the partition fails.  Calling `ForEach` twice with no
intervening `PostIterate` (capacity 2, one expired entry in slot 1)
buffers index 1 twice, after which `|Free| + |Active| + |PendingRemoval| =
1 + 0 + 2 = 3 ≠ 2`.  No intervening sweep occurs before the second pass,
and in the C++ execution both buffered writes stay in bounds. -/
theorem claim1_counterexample :
    ¬ TaskContainer.PartitionInv
        (TaskContainer.runOps (TaskContainer.init 2)
          [COp.ins { taskInfo := taskA, duration := 0 },
           COp.visit (fun e => (e, decide (e.duration ≤ 0))),
           COp.visit (fun e => (e, decide (e.duration ≤ 0)))]) := by
  decide

/-- Claim C1 (amended): for every sequence of Allocate / VisitAll / Sweep
operations in which each visit pass begins with an empty removal buffer
(each `ForEach` is swept before the next one, the protocol the scheduler
always follows and the spec prescribes), after every operation the free
list, the logically-active set, and the removal buffer partition the index
range `0..C-1`: sizes sum to `C`, each index lies in exactly one of the
three, and none lies in two. -/
theorem claim1_partition_invariant (size : Nat) (ops : List COp)
    (hwf : TaskContainer.wfFrom (TaskContainer.init size) ops = true) :
    TaskContainer.PartitionInv
      (TaskContainer.runOps (TaskContainer.init size) ops) :=
  TaskContainer.inv_partition _
    (TaskContainer.runOps_inv ops _ (TaskContainer.init_inv size) hwf)

/-- Witness for the amended C1 on a concrete well-formed sequence. -/
theorem claim1_partition_invariant_witness :
    TaskContainer.wfFrom (TaskContainer.init 2) wfOps = true ∧
    TaskContainer.PartitionInv
      (TaskContainer.runOps (TaskContainer.init 2) wfOps) :=
  ⟨by decide, claim1_partition_invariant 2 wfOps (by decide)⟩

/-- Claim C4: `Insert` fails (returning false, entry discarded, state
unchanged) iff the free list is empty; on success it pops exactly the top
free index, overwrites that slot with the entry, and adds the index to the
active set.  On a capacity-1 arena a first submission succeeds, a second
one before the first is swept fails, and the rejected entry leaves no
trace in the container (so that task can never run). -/
theorem claim4_insert_spec :
    (∀ (c : TaskContainer) (e : TimedTaskInfo),
      ((c.insert e).2 = false ↔ c.freeList = []) ∧
      ((c.insert e).2 = false → (c.insert e).1 = c) ∧
      (∀ i rest, c.freeList = i :: rest →
        (c.insert e).2 = true ∧
        (c.insert e).1.freeList = rest ∧
        (c.insert e).1.slots i = e ∧
        i ∈ (c.insert e).1.allocated ∧
        (c.insert e).1.removals = c.removals ∧
        (c.insert e).1.size = c.size)) ∧
    (((TaskContainer.init 1).insert { taskInfo := taskA, duration := 5 }).2
        = true ∧
     ((((TaskContainer.init 1).insert
          { taskInfo := taskA, duration := 5 }).1).insert
            { taskInfo := taskB, duration := 3 }).2 = false ∧
     ((((TaskContainer.init 1).insert
          { taskInfo := taskA, duration := 5 }).1).insert
            { taskInfo := taskB, duration := 3 }).1
        = (((TaskContainer.init 1).insert
            { taskInfo := taskA, duration := 5 })).1) := by
  refine ⟨?_, by decide, by decide, rfl⟩
  intro c e
  cases hfl : c.freeList with
  | nil =>
      refine ⟨by simp [TaskContainer.insert, hfl], ?_, ?_⟩
      · intro _
        simp [TaskContainer.insert, hfl]
      · intro i rest h
        simp at h
  | cons a r =>
      refine ⟨by simp [TaskContainer.insert, hfl], ?_, ?_⟩
      · intro h
        simp [TaskContainer.insert, hfl] at h
      · intro i rest h
        injection h with h1 h2
        subst h1
        subst h2
        refine ⟨by simp [TaskContainer.insert, hfl],
          by simp [TaskContainer.insert, hfl], ?_, ?_,
          by simp [TaskContainer.insert, hfl],
          by simp [TaskContainer.insert, hfl]⟩
        · simp [TaskContainer.insert, hfl]
        · by_cases hm : a ∈ c.allocated <;>
            simp [TaskContainer.insert, hfl, hm]

/-- Witness for C4's success-case implications at a concrete input. -/
theorem claim4_insert_spec_witness :
    ((TaskContainer.init 2).freeList = 1 :: [0]) ∧
    (((TaskContainer.init 2).insert { taskInfo := taskA, duration := 5 }).2
        = true) ∧
    (((TaskContainer.init 2).insert
        { taskInfo := taskA, duration := 5 }).1.freeList = [0]) ∧
    (((TaskContainer.init 2).insert
        { taskInfo := taskA, duration := 5 }).1.slots 1
        = { taskInfo := taskA, duration := 5 }) ∧
    (1 ∈ ((TaskContainer.init 2).insert
        { taskInfo := taskA, duration := 5 }).1.allocated) := by
  have h := (claim4_insert_spec.1 (TaskContainer.init 2)
    { taskInfo := taskA, duration := 5 }).2.2 1 [0] (by decide)
  exact ⟨by decide, h.1, h.2.1, h.2.2.1, h.2.2.2.1⟩

/-- Claim C5, counterexample: a state reachable by public operations only
(capacity 2: two inserts, two visit passes with no sweep between them,
then one sweep — no C++ array write goes out of bounds along the way) in
which two consecutive successful `Insert` calls pop the same slot index 1.
-/
theorem claim5_counterexample :
    ((TaskContainer.runOps (TaskContainer.init 2) doubleVisitOps).insertIndex
        = some 1) ∧
    (((TaskContainer.runOps (TaskContainer.init 2) doubleVisitOps).insert
        { taskInfo := taskA, duration := 7 }).2 = true) ∧
    ((((TaskContainer.runOps (TaskContainer.init 2) doubleVisitOps).insert
        { taskInfo := taskA, duration := 7 }).1).insertIndex = some 1) ∧
    (((((TaskContainer.runOps (TaskContainer.init 2) doubleVisitOps).insert
        { taskInfo := taskA, duration := 7 }).1).insert
          { taskInfo := taskB, duration := 9 }).2 = true) := by
  decide

/-- Claim C5 (amended): for every state reached by a well-formed sequence
(each visit pass swept before the next), the live prefix of the free list
is duplicate-free and disjoint from the active set, and two consecutive
`Insert` calls with no intervening `Sweep` never pop the same index. -/
theorem claim5_no_double_allocation (size : Nat) (ops : List COp)
    (hwf : TaskContainer.wfFrom (TaskContainer.init size) ops = true) :
    (TaskContainer.runOps (TaskContainer.init size) ops).freeList.Nodup ∧
    (∀ i ∈ (TaskContainer.runOps (TaskContainer.init size) ops).freeList,
        i ∉ (TaskContainer.runOps (TaskContainer.init size) ops).allocated) ∧
    (∀ (e : TimedTaskInfo) (i j : Nat),
        (TaskContainer.runOps (TaskContainer.init size) ops).insertIndex
            = some i →
        (((TaskContainer.runOps (TaskContainer.init size) ops).insert
            e).1).insertIndex = some j →
        i ≠ j) := by
  have hinv :=
    TaskContainer.runOps_inv ops _ (TaskContainer.init_inv size) hwf
  obtain ⟨hf, _, _, _, hfa, _⟩ := hinv
  exact ⟨hf, hfa, fun e i j hi hj =>
    insertIndex_consecutive _ hf e i j hi hj⟩

/-- Witness for the amended C5 on a concrete well-formed sequence. -/
theorem claim5_no_double_allocation_witness :
    TaskContainer.wfFrom (TaskContainer.init 2) wfOps = true ∧
    ((TaskContainer.runOps (TaskContainer.init 2) wfOps).insertIndex
        = some 1) ∧
    (((TaskContainer.runOps (TaskContainer.init 2) wfOps).insert
        { taskInfo := taskA, duration := 7 }).1.insertIndex = some 0) ∧
    (1 : Nat) ≠ 0 :=
  ⟨by decide, by decide, by decide,
    (claim5_no_double_allocation 2 wfOps (by decide)).2.2
      { taskInfo := taskA, duration := 7 } 1 0 (by decide) (by decide)⟩

/-- Claim C6: `TaskContainer::PostIterate` pushes every buffered index
onto the free list, removes each from the active set, and always leaves
the removal buffer empty — but the `LinkedListArray::PostIterate` draft it
is also attributed to omits the `mRemovalCount = 0` reset: on a size-1
instance the buffer still holds index 0 after the sweep, and a second
sweep pushes index 0 onto the free list a second time. -/
theorem claim6_sweep_clears_buffer :
    (∀ c : TaskContainer, c.postIterate.removals = []) ∧
    (∀ c : TaskContainer,
        c.postIterate.freeList = c.removals.reverse ++ c.freeList) ∧
    (∀ c : TaskContainer, c.allocated.Nodup →
        ∀ i ∈ c.removals, i ∉ c.postIterate.allocated) ∧
    (llMarked.removals = [0] ∧
     llMarked.postIterate.removals = [0] ∧
     llMarked.postIterate.postIterate.freeList = [0, 0]) := by
  refine ⟨fun c => rfl,
    fun c => foldl_cons_eq_reverse_append c.removals c.freeList,
    ?_, by decide, by decide, by decide⟩
  intro c hnd i hi hmem
  rw [TaskContainer.postIterate_eq c hnd] at hmem
  simp only [List.mem_filter, decide_eq_true_eq] at hmem
  exact hmem.2 hi

/-- Witness for C6's conditional conjunct at a concrete marked container. -/
theorem claim6_sweep_clears_buffer_witness :
    markedC1.allocated.Nodup ∧ 0 ∈ markedC1.removals ∧
    0 ∉ markedC1.postIterate.allocated :=
  ⟨by decide, by decide,
    claim6_sweep_clears_buffer.2.2.1 markedC1 (by decide) 0 (by decide)⟩

/-- Claim C10: `PostIterate` is idempotent on `TaskContainer`: the first
call empties the removal buffer, and a sweep of an empty buffer changes
nothing. -/
theorem claim10_sweep_idempotent (c : TaskContainer) :
    c.postIterate.postIterate = c.postIterate := rfl

/-- Claim C3 (the code, evaluated at the failing input): on the full
capacity-1 scheduler a second submission is rejected — the arena is
unchanged and the entry is discarded — but the only failure signal is
`TaskContainer::Insert`'s boolean, which `AddTimedTask` discards;
`AddTimedTask` returns void, so the resulting scheduler state is the
caller's entire outcome and it equals the prior state: no `ArenaExhausted`
status reaches the caller. -/
theorem claim3_exhaustion_unreported :
    (schedFull.container.allocated = [0]) ∧
    (schedFull.container.freeList = []) ∧
    ((schedFull.container.insert { taskInfo := taskB, duration := 5 }).2
        = false) ∧
    (schedFull.addTimedTask 5 taskB = schedFull) := by
  refine ⟨by decide, by decide, by decide, ?_⟩
  rfl

/-- Claim C9, counterexample: after `Terminate(false)` the scheduler still
accepts both operations — a `Submit` with a valid callback inserts into
the arena (active set becomes `[0]`), and a subsequent `Tick` dispatches
that task synchronously and reclaims the slot.  `mRunning` is set by
`Terminate` but never read by `AddTimedTask` or `ProcessTasks`. -/
theorem claim9_counterexample :
    (((schedCap1.terminate false).addTimedTask 5 taskA).container.allocated
        = [0]) ∧
    ((((schedCap1.terminate false).addTimedTask 5 taskA).processTasks
        10).syncRuns = [taskA]) ∧
    ((((schedCap1.terminate false).addTimedTask 5 taskA).processTasks
        10).container.allocated = []) := by
  decide

/-- Claim C9 (amended): `Terminate(false)` only clears the running flag;
it installs no guard, so a later `Submit` or `Tick` behaves exactly as it
would have before the call (the spec's sentence is an obligation on
callers, not behavior the code enforces). -/
theorem claim9_terminate_unenforced :
    (∀ s : TaskScheduler, s.terminate false = { s with running := false }) ∧
    (∀ (s : TaskScheduler) (d : Int) (t : TaskInfo),
        (s.terminate false).addTimedTask d t
          = { s.addTimedTask d t with running := false }) ∧
    (∀ (s : TaskScheduler) (E : Int),
        (s.terminate false).processTasks E
          = { s.processTasks E with running := false }) := by
  refine ⟨fun s => rfl, ?_, fun s E => rfl⟩
  intro s d t
  obtain ⟨cb, fs⟩ := t
  cases cb <;> rfl

/-- Claim C2: on every `Tick`, each pending entry with `elapsed >=
remaining` is dispatched exactly once — appended once to exactly one of
the two dispatch logs, by affinity — and its slot leaves the active set
(so it cannot fire at any later tick); each other entry is kept and its
remaining duration decreases by exactly the measured elapsed amount (so
it cannot fire before its remaining time has elapsed).  The hypotheses
hold in every state the scheduler itself produces: `mAllocated` is a set
and `ProcessTasks` always sweeps the removal buffer. -/
theorem claim2_tick_dispatch (s : TaskScheduler) (E : Int)
    (hnd : s.container.allocated.Nodup) (hrem : s.container.removals = []) :
    ((s.processTasks E).syncRuns
        = s.syncRuns ++
          ((s.container.allocated.map s.container.slots).filter
              (fun e => tickMark E e &&
                syncMode s.parallelExecutionAllowed e)).map
            (fun e => e.taskInfo)) ∧
    ((s.processTasks E).poolQueue
        = s.poolQueue ++
          ((s.container.allocated.map s.container.slots).filter
              (fun e => tickMark E e &&
                !syncMode s.parallelExecutionAllowed e)).map
            (fun e => e.taskInfo)) ∧
    (∀ i ∈ s.container.allocated,
        (E ≥ (s.container.slots i).duration →
          i ∉ (s.processTasks E).container.allocated) ∧
        (¬ E ≥ (s.container.slots i).duration →
          i ∈ (s.processTasks E).container.allocated ∧
          (s.processTasks E).container.slots i
            = { s.container.slots i with
                  duration := (s.container.slots i).duration - E })) := by
  have hF := TaskContainer.forEach_eq s.container
    (TaskScheduler.forEachTask s.parallelExecutionAllowed E)
    (tickUpd E) (tickMark E)
    (forEachTask_upd s.parallelExecutionAllowed E)
    (forEachTask_mark s.parallelExecutionAllowed E)
    (s.syncRuns, s.poolQueue) hnd
  have hPT : s.processTasks E =
      { s with
          elapsed := E
          container := ({ s.container with
              slots := fun j => if j ∈ s.container.allocated
                  then tickUpd E (s.container.slots j)
                  else s.container.slots j
              removals := s.container.removals ++
                s.container.allocated.filter
                  (fun i => tickMark E (s.container.slots i)) }).postIterate
          syncRuns := ((s.container.allocated.map s.container.slots).foldl
              (fun l e =>
                (TaskScheduler.forEachTask s.parallelExecutionAllowed E
                  l e).1)
              (s.syncRuns, s.poolQueue)).1
          poolQueue := ((s.container.allocated.map s.container.slots).foldl
              (fun l e =>
                (TaskScheduler.forEachTask s.parallelExecutionAllowed E
                  l e).1)
              (s.syncRuns, s.poolQueue)).2 } := by
    unfold TaskScheduler.processTasks
    rw [hF]
  have hlogs := forEachTask_logs s.parallelExecutionAllowed E
    (s.container.allocated.map s.container.slots) s.syncRuns s.poolQueue
  have hpi := TaskContainer.postIterate_eq
    ({ s.container with
        slots := fun j => if j ∈ s.container.allocated
            then tickUpd E (s.container.slots j) else s.container.slots j
        removals := s.container.removals ++
          s.container.allocated.filter
            (fun i => tickMark E (s.container.slots i)) }) hnd
  refine ⟨?_, ?_, ?_⟩
  · rw [hPT]
    show ((s.container.allocated.map s.container.slots).foldl
        (fun l e =>
          (TaskScheduler.forEachTask s.parallelExecutionAllowed E l e).1)
        (s.syncRuns, s.poolQueue)).1 = _
    rw [hlogs]
  · rw [hPT]
    show ((s.container.allocated.map s.container.slots).foldl
        (fun l e =>
          (TaskScheduler.forEachTask s.parallelExecutionAllowed E l e).1)
        (s.syncRuns, s.poolQueue)).2 = _
    rw [hlogs]
  · intro i hia
    have hmem : ∀ j, j ∈ (s.processTasks E).container.allocated ↔
        (j ∈ s.container.allocated ∧
          ¬ tickMark E (s.container.slots j) = true) := by
      intro j
      rw [hPT]
      show j ∈ ({ s.container with
          slots := fun k => if k ∈ s.container.allocated
              then tickUpd E (s.container.slots k) else s.container.slots k
          removals := s.container.removals ++
            s.container.allocated.filter
              (fun k => tickMark E (s.container.slots k)) }).postIterate.allocated
            ↔ _
      rw [hpi]
      simp only [List.mem_filter, decide_eq_true_eq, hrem, List.nil_append,
        List.mem_filter]
      constructor
      · intro hx
        exact ⟨hx.1, fun hm => hx.2 ⟨hx.1, hm⟩⟩
      · intro hx
        exact ⟨hx.1, fun hm => hx.2 hm.2⟩
    have hslots : (s.processTasks E).container.slots i
        = tickUpd E (s.container.slots i) := by
      rw [hPT]
      show (({ s.container with
          slots := fun k => if k ∈ s.container.allocated
              then tickUpd E (s.container.slots k) else s.container.slots k
          removals := s.container.removals ++
            s.container.allocated.filter
              (fun k => tickMark E (s.container.slots k)) }).postIterate).slots i
            = _
      rw [hpi]
      simp only [if_pos hia]
    constructor
    · intro hdur hin
      have hm : tickMark E (s.container.slots i) = true := by
        simp [tickMark, hdur]
      exact ((hmem i).mp hin).2 hm
    · intro hdur
      have hm : ¬ tickMark E (s.container.slots i) = true := by
        simp [tickMark, hdur]
      refine ⟨(hmem i).mpr ⟨hia, hm⟩, ?_⟩
      rw [hslots]
      unfold tickUpd
      rw [if_neg hdur]

/-- Witness for C2 on a concrete two-task scheduler state. -/
def schedTwo : TaskScheduler :=
  ((TaskScheduler.create
      { maxSize := 2, numParallelThreads := 1 }).addTimedTask 100
    taskA).addTimedTask 40 taskB

/-- Witness for C2: a tick of 50 ms on `schedTwo` hands the expired
parallel task to the pool, keeps the surviving task with its remaining
time reduced by exactly 50 ms, and frees the expired slot. -/
theorem claim2_tick_dispatch_witness :
    schedTwo.container.allocated.Nodup ∧
    schedTwo.container.removals = [] ∧
    ((schedTwo.processTasks 50).syncRuns = []) ∧
    ((schedTwo.processTasks 50).poolQueue = [taskB]) ∧
    (1 ∈ (schedTwo.processTasks 50).container.allocated) ∧
    ((schedTwo.processTasks 50).container.slots 1
        = { taskInfo := taskA, duration := 50 }) ∧
    (0 ∉ (schedTwo.processTasks 50).container.allocated) := by
  have h := claim2_tick_dispatch schedTwo 50 (by decide) (by decide)
  refine ⟨by decide, by decide, ?_, ?_, ?_, ?_, ?_⟩
  · exact h.1.trans (by decide)
  · exact h.2.1.trans (by decide)
  · exact ((h.2.2 1 (by decide)).2 (by decide)).1
  · exact (((h.2.2 1 (by decide)).2 (by decide)).2).trans (by decide)
  · exact (h.2.2 0 (by decide)).1 (by decide)

/-- Claim C7: the constructor enables parallel execution exactly when
`numParallelThreads > 0`; a triggered entry with `forceSynchronous` true
or no pool configured is executed synchronously inside the tick (appended
to the driving thread's run log, pool queue untouched), otherwise it is
handed to the pool queue and the tick does not run it; and with the pool
disabled a whole tick never touches the pool queue, so every task runs
synchronously regardless of its flag. -/
theorem claim7_dispatch_affinity :
    (∀ info : TaskSchedulerInfo,
        (TaskScheduler.create info).parallelExecutionAllowed
          = decide (0 < info.numParallelThreads)) ∧
    (∀ (allowed : Bool) (E : Int) (logs : List TaskInfo × List TaskInfo)
        (e : TimedTaskInfo), E ≥ e.duration →
        ((e.taskInfo.forceSynchronous || !allowed) = true →
            TaskScheduler.forEachTask allowed E logs e
              = ((logs.1 ++ [e.taskInfo], logs.2), e, true)) ∧
        ((e.taskInfo.forceSynchronous || !allowed) = false →
            TaskScheduler.forEachTask allowed E logs e
              = ((logs.1, logs.2 ++ [e.taskInfo]), e, true))) ∧
    (∀ (s : TaskScheduler) (E : Int), s.parallelExecutionAllowed = false →
        (s.processTasks E).poolQueue = s.poolQueue) := by
  refine ⟨fun info => rfl, ?_, ?_⟩
  · intro allowed E logs e h
    constructor
    · intro hs
      simp [TaskScheduler.forEachTask, h, hs]
    · intro hs
      have hfs : e.taskInfo.forceSynchronous = false :=
        (Bool.or_eq_false_iff.mp hs).1
      have hal : allowed = true := by
        have := (Bool.or_eq_false_iff.mp hs).2
        simpa using this
      simp [TaskScheduler.forEachTask, h, hfs, hal]
  · intro s E hpar
    show ((s.container.allocated.foldl
        (TaskContainer.visitStep
          (TaskScheduler.forEachTask s.parallelExecutionAllowed E))
        (s.container.slots, s.container.removals,
          (s.syncRuns, s.poolQueue))).2.2).2 = s.poolQueue
    rw [hpar]
    exact visit_foldl_pool_const E s.container.allocated _

/-- Witness for C7: a triggered synchronous task runs inline; a triggered
parallel task is queued; a tick of the pool-less `schedFull` leaves the
pool queue empty. -/
theorem claim7_dispatch_affinity_witness :
    ((3 : Int) ≥ (2 : Int)) ∧
    (TaskScheduler.forEachTask true 3 ([], [])
        { taskInfo := taskA, duration := 2 }
      = (([taskA], []), { taskInfo := taskA, duration := 2 }, true)) ∧
    (TaskScheduler.forEachTask true 3 ([], [])
        { taskInfo := taskB, duration := 2 }
      = (([], [taskB]), { taskInfo := taskB, duration := 2 }, true)) ∧
    ((schedFull.processTasks 10).poolQueue = schedFull.poolQueue) :=
  ⟨by decide,
   (claim7_dispatch_affinity.2.1 true 3 ([], [])
      { taskInfo := taskA, duration := 2 } (by decide)).1 (by decide),
   (claim7_dispatch_affinity.2.1 true 3 ([], [])
      { taskInfo := taskB, duration := 2 } (by decide)).2 (by decide),
   claim7_dispatch_affinity.2.2 schedFull 10 (by decide)⟩

/-- Claim C8: a `ForEach` pass never changes the membership of the active
set, the free list, or the capacity, whatever the visitor does; with each
allocated index visited once (`mAllocated` is a set), the pass appends to
the removal buffer exactly the indices the visitor flags and rewrites each
visited slot with the visitor's in-place update, leaving unallocated slots
alone; and the scheduler's own visitor returns entries it marks for
removal unchanged (their storage is untouched) while entries it keeps only
have their remaining duration decremented.  No index enters or leaves the
active set until `PostIterate` runs. -/
theorem claim8_visit_frame :
    (∀ {σ : Type} (c : TaskContainer)
        (f : σ → TimedTaskInfo → σ × TimedTaskInfo × Bool) (s0 : σ),
        ((c.forEach f s0).1.allocated = c.allocated) ∧
        ((c.forEach f s0).1.freeList = c.freeList) ∧
        ((c.forEach f s0).1.size = c.size)) ∧
    (∀ {σ : Type} (c : TaskContainer)
        (f : σ → TimedTaskInfo → σ × TimedTaskInfo × Bool)
        (upd : TimedTaskInfo → TimedTaskInfo) (mark : TimedTaskInfo → Bool),
        (∀ s e, (f s e).2.1 = upd e) →
        (∀ s e, (f s e).2.2 = mark e) →
        ∀ (s0 : σ), c.allocated.Nodup →
        ((c.forEach f s0).1.removals
            = c.removals ++
              c.allocated.filter (fun i => mark (c.slots i))) ∧
        (∀ i ∈ c.allocated,
            (c.forEach f s0).1.slots i = upd (c.slots i)) ∧
        (∀ i, i ∉ c.allocated →
            (c.forEach f s0).1.slots i = c.slots i)) ∧
    (∀ (allowed : Bool) (E : Int) (logs : List TaskInfo × List TaskInfo)
        (e : TimedTaskInfo),
        ((TaskScheduler.forEachTask allowed E logs e).2.2 = true →
            (TaskScheduler.forEachTask allowed E logs e).2.1 = e) ∧
        ((TaskScheduler.forEachTask allowed E logs e).2.2 = false →
            (TaskScheduler.forEachTask allowed E logs e).2.1
              = { e with duration := e.duration - E })) := by
  refine ⟨?_, ?_, ?_⟩
  · intro σ c f s0
    exact ⟨rfl, rfl, rfl⟩
  · intro σ c f upd mark hupd hmark s0 hnd
    rw [TaskContainer.forEach_eq c f upd mark hupd hmark s0 hnd]
    refine ⟨rfl, ?_, ?_⟩
    · intro i hi
      simp only [if_pos hi]
    · intro i hi
      simp only [if_neg hi]
  · intro allowed E logs e
    by_cases h : E ≥ e.duration
    · by_cases hs : (e.taskInfo.forceSynchronous || !allowed) = true <;>
        constructor <;> intro hflag <;>
        simp [TaskScheduler.forEachTask, h, hs] at hflag ⊢
    · constructor <;> intro hflag <;>
        simp [TaskScheduler.forEachTask, h] at hflag ⊢

/-- Witness for C8 on a concrete one-entry container and a mark-all
visitor. -/
theorem claim8_visit_frame_witness :
    ((TaskContainer.runOps (TaskContainer.init 1)
        [COp.ins { taskInfo := taskA, duration := 0 }]).allocated.Nodup) ∧
    (((TaskContainer.runOps (TaskContainer.init 1)
        [COp.ins { taskInfo := taskA, duration := 0 }]).forEach
          (fun (u : Unit) e => (u, e, true)) ()).1.removals = [0]) := by
  refine ⟨by decide, ?_⟩
  have h := (claim8_visit_frame.2.1
    (TaskContainer.runOps (TaskContainer.init 1)
      [COp.ins { taskInfo := taskA, duration := 0 }])
    (fun (u : Unit) e => (u, e, true)) (fun e => e) (fun _ => true)
    (fun _ _ => rfl) (fun _ _ => rfl) () (by decide)).1
  exact h.trans (by decide)
